import Mathlib

/-!
Verification of the marshal-generation engine of nih-dbus-tool
(src/nih-dbus-tool/marshal.c).

Embedding conventions
---------------------

* A generated code fragment is a `List Line`, one entry per newline-terminated
  line of the emitted C text.  Every format string the source passes to
  `nih_strcat_sprintf` ends in a newline, so string concatenation in the source
  corresponds exactly to list append here.  A `Line` records the indentation
  level (number of leading tabs, as produced by the external `indent` helper)
  separately from the text of the line.

* Variable descriptors (`TypeVar` in type.h) are (type, name) string pairs.
  The source appends descriptors to caller-supplied `NihList`s; here each
  generator returns the lists of descriptors it appends
  (`code × inputs × locals`), which is the same data for initially-empty lists.

* D-Bus type codes are the C `int` character codes used by libdbus
  (`'i' = 105` for INT32 and so on).  `dbus_type_is_fixed`,
  `dbus_type_is_basic` reproduce the libdbus classification.

* Allocation failure inside the generator (the `return NULL` paths of
  marshal.c) is not modelled: the embedding is the successful execution of the
  generator.  `nih_assert` aborts are modelled where a claim is about them
  (see `marshal_route`).

* The external Type Mapper (type.c) and `indent` helper (indent.c) are part of
  this repository but are not under src/; they are modelled from the spec where
  marked below.

* A signature element is a `Sig`.  Struct/dict-entry members are a `List Sig`;
  the D-Bus signature grammar guarantees at least one member, which
  `Sig.wfB` records.  The source walks members with a do/while loop, so for the
  (grammatically impossible) empty member list the model simply produces
  nothing.
-/

/-- Line of generated C code: indentation depth (tabs) plus text. -/
structure Line where
  depth : Nat
  text : String
deriving Repr, DecidableEq

/-- Variable descriptor, mirroring TypeVar of type.h: a C type and a name. -/
structure TypeVar where
  type : String
  name : String
deriving Repr, DecidableEq

/-- Modelled from the spec: the external Indentation helper (indent.c), at one
nesting level — each line of the block is re-indented one level deeper. -/
def indentLines (ls : List Line) : List Line :=
  ls.map fun l => ⟨l.depth + 1, l.text⟩

/-- Suffix of a string after dropping `n` characters; this models the C
pointer arithmetic `input_var->name + strlen (element_name)`.  It agrees with
`String.drop` (see `strDrop_eq`) but is stated on `data` so that it evaluates
in the kernel. -/
def strDrop (s : String) (n : Nat) : String := ⟨s.data.drop n⟩

/-- D-Bus type code constants (character codes), as in dbus-protocol.h. -/
def DBUS_TYPE_BYTE : Int := 121
def DBUS_TYPE_BOOLEAN : Int := 98
def DBUS_TYPE_INT16 : Int := 110
def DBUS_TYPE_UINT16 : Int := 113
def DBUS_TYPE_INT32 : Int := 105
def DBUS_TYPE_UINT32 : Int := 117
def DBUS_TYPE_INT64 : Int := 120
def DBUS_TYPE_UINT64 : Int := 116
def DBUS_TYPE_DOUBLE : Int := 100
def DBUS_TYPE_UNIX_FD : Int := 104
def DBUS_TYPE_STRING : Int := 115
def DBUS_TYPE_OBJECT_PATH : Int := 111
def DBUS_TYPE_SIGNATURE : Int := 103
def DBUS_TYPE_ARRAY : Int := 97
def DBUS_TYPE_STRUCT : Int := 114
def DBUS_TYPE_DICT_ENTRY : Int := 101
def DBUS_TYPE_VARIANT : Int := 118

/-- libdbus classification: fixed-size basic types (numerics, boolean,
unix fd). -/
def dbus_type_is_fixed (t : Int) : Bool :=
  t = DBUS_TYPE_BYTE || t = DBUS_TYPE_BOOLEAN || t = DBUS_TYPE_INT16 ||
  t = DBUS_TYPE_UINT16 || t = DBUS_TYPE_INT32 || t = DBUS_TYPE_UINT32 ||
  t = DBUS_TYPE_INT64 || t = DBUS_TYPE_UINT64 || t = DBUS_TYPE_DOUBLE ||
  t = DBUS_TYPE_UNIX_FD

/-- libdbus classification: basic types (fixed types plus the string-like
types). -/
def dbus_type_is_basic (t : Int) : Bool :=
  dbus_type_is_fixed t || t = DBUS_TYPE_STRING || t = DBUS_TYPE_OBJECT_PATH ||
  t = DBUS_TYPE_SIGNATURE

/-- One element of a D-Bus type signature, as seen through the external
Signature Walker.  `basic` carries its D-Bus type code; `strct` carries the
entry/struct distinction, the native aggregate type name produced for it by
the external Type Mapper, and the ordered member list. -/
inductive Sig : Type where
  | basic (code : Int)
  | array (elem : Sig)
  | strct (isEntry : Bool) (ctype : String) (members : List Sig)

/-- D-Bus type code of the current signature element, as returned by
`dbus_signature_iter_get_current_type`. -/
def Sig.currentTypeCode : Sig → Int
  | .basic c => c
  | .array _ => DBUS_TYPE_ARRAY
  | .strct false _ _ => DBUS_TYPE_STRUCT
  | .strct true _ _ => DBUS_TYPE_DICT_ENTRY

mutual

/-- Well-formed signature elements: basic codes really are basic, and every
struct or dictionary entry has at least one member (guaranteed by the D-Bus
signature grammar). -/
def Sig.wfB : Sig → Bool
  | .basic c => dbus_type_is_basic c
  | .array e => e.wfB
  | .strct _ _ ms => !ms.isEmpty && Sig.wfListB ms

/-- Well-formedness of a member list (conjunction over the members). -/
def Sig.wfListB : List Sig → Bool
  | [] => true
  | m :: rest => m.wfB && Sig.wfListB rest

end

/-- Propositional form of `Sig.wfB`. -/
def Sig.wf (s : Sig) : Prop := s.wfB = true

instance (s : Sig) : Decidable s.wf :=
  inferInstanceAs (Decidable (s.wfB = true))

/-- Modelled from the spec: the external Type Mapper's `type_const` (type.c is
not under src/) — the symbolic constant identifying a wire-format type tag. -/
def type_const (t : Int) : String :=
  if t = DBUS_TYPE_BYTE then "DBUS_TYPE_BYTE"
  else if t = DBUS_TYPE_BOOLEAN then "DBUS_TYPE_BOOLEAN"
  else if t = DBUS_TYPE_INT16 then "DBUS_TYPE_INT16"
  else if t = DBUS_TYPE_UINT16 then "DBUS_TYPE_UINT16"
  else if t = DBUS_TYPE_INT32 then "DBUS_TYPE_INT32"
  else if t = DBUS_TYPE_UINT32 then "DBUS_TYPE_UINT32"
  else if t = DBUS_TYPE_INT64 then "DBUS_TYPE_INT64"
  else if t = DBUS_TYPE_UINT64 then "DBUS_TYPE_UINT64"
  else if t = DBUS_TYPE_DOUBLE then "DBUS_TYPE_DOUBLE"
  else if t = DBUS_TYPE_UNIX_FD then "DBUS_TYPE_UNIX_FD"
  else if t = DBUS_TYPE_STRING then "DBUS_TYPE_STRING"
  else if t = DBUS_TYPE_OBJECT_PATH then "DBUS_TYPE_OBJECT_PATH"
  else if t = DBUS_TYPE_SIGNATURE then "DBUS_TYPE_SIGNATURE"
  else if t = DBUS_TYPE_ARRAY then "DBUS_TYPE_ARRAY"
  else if t = DBUS_TYPE_STRUCT then "DBUS_TYPE_STRUCT"
  else if t = DBUS_TYPE_DICT_ENTRY then "DBUS_TYPE_DICT_ENTRY"
  else if t = DBUS_TYPE_VARIANT then "DBUS_TYPE_VARIANT"
  else ""

/-- Does a C type name denote a pointer (text ends in an asterisk)? -/
def isPointerType (t : String) : Bool := t.data.getLast? = some '*'

/-- Modelled from the spec: the external Type Mapper's `type_to_const` — the
read-only-qualified form of a type name.  Only pointer types are qualified
(marshal.c's own comment: "We make our C type const as a promise that we never
modify the value, if it's a pointer"), and an already-const type is left
alone. -/
def type_to_const (t : String) : String :=
  if isPointerType t ∧ t.data.take 6 ≠ "const ".data then "const " ++ t else t

/-- Modelled from the spec: the external Type Mapper's `type_to_pointer` — the
pointer-to form of a type name. -/
def type_to_pointer (t : String) : String :=
  if isPointerType t then t ++ "*" else t ++ " *"

/-- Modelled from the spec: the external Type Mapper's native type for a basic
D-Bus type code. -/
def type_of_basic (t : Int) : String :=
  if t = DBUS_TYPE_BYTE then "uint8_t"
  else if t = DBUS_TYPE_BOOLEAN then "int"
  else if t = DBUS_TYPE_INT16 then "int16_t"
  else if t = DBUS_TYPE_UINT16 then "uint16_t"
  else if t = DBUS_TYPE_INT32 then "int32_t"
  else if t = DBUS_TYPE_UINT32 then "uint32_t"
  else if t = DBUS_TYPE_INT64 then "int64_t"
  else if t = DBUS_TYPE_UINT64 then "uint64_t"
  else if t = DBUS_TYPE_DOUBLE then "double"
  else if t = DBUS_TYPE_UNIX_FD then "int"
  else if t = DBUS_TYPE_STRING then "char *"
  else if t = DBUS_TYPE_OBJECT_PATH then "char *"
  else if t = DBUS_TYPE_SIGNATURE then "char *"
  else ""

/-- Modelled from the spec: the external Type Mapper's `type_of` — the native
type name for a signature element.  The marshal generators only apply it to
basic elements and to struct/entry elements (whose aggregate pointer type name
is carried on the node); the array case is given for totality only. -/
def type_of : Sig → String
  | .basic c => type_of_basic c
  | .array e => type_to_pointer (type_of e)
  | .strct _ ctype _ => ctype

mutual

/-- Modelled from the spec: `dbus_signature_iter_get_signature` of the external
Signature Walker — the canonical signature string of an element. -/
def signatureOf : Sig → String
  | .basic c => ⟨[Char.ofNat c.toNat]⟩
  | .array e => "a" ++ signatureOf e
  | .strct false _ ms => "(" ++ signatureOfList ms ++ ")"
  | .strct true _ ms => "\x7b" ++ signatureOfList ms ++ "\x7d"

/-- Signature string of a member list (concatenation). -/
def signatureOfList : List Sig → String
  | [] => ""
  | m :: rest => signatureOf m ++ signatureOfList rest

end

/-- marshal_basic() of marshal.c (lines 175–236): emit one
`dbus_message_iter_append_basic` call guarded by the OOM recovery block;
produce one read-only input named exactly `name` and no locals. -/
def marshal_basic (c : Int) (iter_name name : String) (oom_error_code : List Line) :
    List Line × List TypeVar × List TypeVar :=
  let dbus_const := type_const c
  let oom_error_block := indentLines oom_error_code
  let c_type := type_to_const (type_of (.basic c))
  let code : List Line :=
    [⟨0, "/* Marshal a " ++ c_type ++ " onto the message */"⟩,
     ⟨0, "if (! dbus_message_iter_append_basic (&" ++ iter_name ++ ", " ++
         dbus_const ++ ", &" ++ name ++ ")) \x7b"⟩]
    ++ oom_error_block ++ [⟨0, "\x7d"⟩]
  (code, [⟨c_type, name⟩], [])

mutual

/-- marshal() of marshal.c (lines 99–138): dispatch on the category of the
current signature element and forward all arguments unchanged to the matching
generator.  The basic case is `marshal_basic` above; the bodies of
marshal_array() (lines 276–529) and marshal_struct() (lines 566–743) are
inlined here as the two container branches, because Lean's structural
recursion over the nested `Sig`/`List Sig` grammar needs the recursive calls
in one function.  The `nih_assert_not_reached` default branch cannot be
entered from `Sig` (the grammar is closed over the three supported shapes);
`marshal_route` below models that branch at the D-Bus type-code level.

marshal_array(): open an array container (declaring the local iterator
`name_iter`), loop over the elements — counted by `name_len` for fixed-size
element types, sentinel-terminated otherwise — re-declare the element
marshalling code's variables as per-iteration locals initialised from
`name[name_i]`, splice the element code, close the container, and promote
each element input to a read-only pointer input of this call (plus the
`size_t name_len` input in the fixed-size case).

marshal_struct(): open a struct or dict-entry container (declaring the local
iterator `name_iter`), marshal each member under the synthetic name
`name_itemK` via `marshal_struct_items`, close the container, and produce the
single read-only aggregate pointer input. -/
def marshal (s : Sig) (iter_name name : String) (oom_error_code : List Line) :
    List Line × List TypeVar × List TypeVar :=
  match s with
  | .basic c => marshal_basic c iter_name name oom_error_code
  | .array e =>
      let array_iter_name := name ++ "_iter"
      let loop_name := name ++ "_i"
      let element_name := name ++ "_element"
      let len_name := name ++ "_len"
      let oom_error_block := indentLines oom_error_code
      let element_type := e.currentTypeCode
      let signature := signatureOf e
      let openCode : List Line :=
        [⟨0, "/* Marshal an array onto the message */"⟩,
         ⟨0, "if (! dbus_message_iter_open_container (&" ++ iter_name ++
             ", DBUS_TYPE_ARRAY, \"" ++ signature ++ "\", &" ++ array_iter_name ++
             ")) \x7b"⟩]
        ++ oom_error_block ++ [⟨0, "\x7d"⟩, ⟨0, ""⟩]
      let forLine : Line :=
        if dbus_type_is_fixed element_type then
          ⟨0, "for (size_t " ++ loop_name ++ " = 0; " ++ loop_name ++ " < " ++
              len_name ++ "; " ++ loop_name ++ "++) \x7b"⟩
        else
          ⟨0, "for (size_t " ++ loop_name ++ " = 0; " ++ name ++ "[" ++ loop_name ++
              "]; " ++ loop_name ++ "++) \x7b"⟩
      let elementRun := marshal e array_iter_name element_name oom_error_code
      let element_block := elementRun.1
      let element_inputs := elementRun.2.1
      let element_locals := elementRun.2.2
      let promotedInputs : List TypeVar := element_inputs.map fun iv =>
        ⟨type_to_const (type_to_pointer iv.type),
         name ++ strDrop iv.name element_name.length⟩
      let block : List Line := element_inputs.map fun iv =>
        ⟨0, iv.name ++ " = " ++ (name ++ strDrop iv.name element_name.length) ++
            "[" ++ loop_name ++ "];"⟩
      let loopLocals := element_locals ++ element_inputs
      let vars_block : List Line := loopLocals.map fun lv =>
        ⟨0, lv.type ++ " " ++ lv.name ++ ";"⟩
      let closeCode : List Line :=
        [⟨0, "\x7d"⟩, ⟨0, ""⟩,
         ⟨0, "if (! dbus_message_iter_close_container (&" ++ iter_name ++ ", &" ++
             array_iter_name ++ ")) \x7b"⟩]
        ++ oom_error_block ++ [⟨0, "\x7d"⟩]
      (openCode ++ [forLine]
         ++ indentLines vars_block ++ [⟨0, ""⟩]
         ++ indentLines block ++ [⟨0, ""⟩]
         ++ indentLines element_block
         ++ closeCode,
       promotedInputs ++
         (if dbus_type_is_fixed element_type then [⟨"size_t", len_name⟩] else []),
       [⟨"DBusMessageIter", array_iter_name⟩])
  | .strct isEntry ctype ms =>
      let dbus_const := type_const (Sig.strct isEntry ctype ms).currentTypeCode
      let struct_iter_name := name ++ "_iter"
      let oom_error_block := indentLines oom_error_code
      let c_type := type_to_const (type_of (.strct isEntry ctype ms))
      let openCode : List Line :=
        [⟨0, "/* Marshal a structure onto the message */"⟩,
         ⟨0, "if (! dbus_message_iter_open_container (&" ++ iter_name ++ ", " ++
             dbus_const ++ ", NULL, &" ++ struct_iter_name ++ ")) \x7b"⟩]
        ++ oom_error_block ++ [⟨0, "\x7d"⟩, ⟨0, ""⟩]
      let items := marshal_struct_items struct_iter_name name oom_error_code 0 ms
      let closeCode : List Line :=
        [⟨0, "if (! dbus_message_iter_close_container (&" ++ iter_name ++ ", &" ++
             struct_iter_name ++ ")) \x7b"⟩]
        ++ oom_error_block ++ [⟨0, "\x7d"⟩]
      (openCode ++ items.1 ++ closeCode,
       [⟨c_type, name⟩],
       ⟨"DBusMessageIter", struct_iter_name⟩ :: items.2)

/-- Member loop of marshal_struct() (the do/while at lines 645–720):
for the member at ordinal `count`, marshal it under the name
`nm_item<count>`, re-parent its locals, reclassify its inputs as locals, and
emit a field-read assignment `input = nm->item<count><suffix>;` for each input
ahead of the member's marshalling code. -/
def marshal_struct_items (struct_iter_name nm : String) (oom_error_code : List Line)
    (count : Nat) (ms : List Sig) : List Line × List TypeVar :=
  match ms with
  | [] => ([], [])
  | m :: rest =>
      let item_name := nm ++ "_item" ++ toString count
      let r := marshal m struct_iter_name item_name oom_error_code
      let assigns : List Line := r.2.1.map fun iv =>
        ⟨0, iv.name ++ " = " ++ nm ++ "->item" ++ toString count ++
            strDrop iv.name item_name.length ++ ";"⟩
      let r2 := marshal_struct_items struct_iter_name nm oom_error_code (count + 1) rest
      (assigns ++ [⟨0, ""⟩] ++ r.1 ++ [⟨0, ""⟩] ++ r2.1,
       (r.2.2 ++ r.2.1) ++ r2.2)

end

/-- Routing decision of the dispatcher. -/
inductive MarshalGen : Type where
  | toBasic
  | toArray
  | toStruct
deriving Repr, DecidableEq

/-- Generator that the dispatcher selects for each supported shape. -/
def Sig.genOf : Sig → MarshalGen
  | .basic _ => .toBasic
  | .array _ => .toArray
  | .strct _ _ _ => .toStruct

/-- Entry guard and routing of marshal() (lines 110–137) at the D-Bus
type-code level: the six `nih_assert (x != NULL)` checks followed by the
category if-chain.  `none` models a fatal `nih_assert`/`nih_assert_not_reached`
abort of generation (the source never returns a recoverable error from these
branches; its NULL returns elsewhere are allocation failure, which is a
different, recoverable condition in the caller). -/
def marshal_route (iter_null iter_name_null name_null oom_error_code_null
    inputs_null locals_null : Bool) (dbus_type : Int) : Option MarshalGen :=
  if iter_null || iter_name_null || name_null || oom_error_code_null ||
     inputs_null || locals_null then none
  else if dbus_type_is_basic dbus_type then some .toBasic
  else if dbus_type = DBUS_TYPE_ARRAY then some .toArray
  else if dbus_type = DBUS_TYPE_STRUCT ∨ dbus_type = DBUS_TYPE_DICT_ENTRY then
    some .toStruct
  else none

mutual

/-- Modelled from the spec (§6/§7, for the refinement claim about recovery
splicing): the number of fallible writer operations a signature element gives
rise to — one `append_basic` per basic element, and container open plus close
for each array and each struct/entry, recursively. -/
def fallibleWriterOps : Sig → Nat
  | .basic _ => 1
  | .array e => 2 + fallibleWriterOps e
  | .strct _ _ ms => 2 + fallibleWriterOpsList ms

/-- Sum of `fallibleWriterOps` over a member list. -/
def fallibleWriterOpsList : List Sig → Nat
  | [] => 0
  | m :: rest => fallibleWriterOps m + fallibleWriterOpsList rest

end

/-- Code segment the struct member loop emits for the member `km.2` at
ordinal `km.1`: the field-read assignments for the member call's inputs,
followed by the member's marshalling code, each part followed by a blank
line. -/
def structItemSeg (sin nm : String) (oom : List Line) (km : Nat × Sig) : List Line :=
  let item_name := nm ++ "_item" ++ toString km.1
  let r := marshal km.2 sin item_name oom
  (r.2.1.map fun iv =>
    (⟨0, iv.name ++ " = " ++ nm ++ "->item" ++ toString km.1 ++
         strDrop iv.name item_name.length ++ ";"⟩ : Line))
  ++ [⟨0, ""⟩] ++ r.1 ++ [⟨0, ""⟩]

/-- Variables the struct member loop adds to the caller's locals for the
member `km.2` at ordinal `km.1`: the member call's re-parented locals
followed by its reclassified inputs. -/
def structItemVars (sin nm : String) (oom : List Line) (km : Nat × Sig) : List TypeVar :=
  let r := marshal km.2 sin (nm ++ "_item" ++ toString km.1) oom
  r.2.2 ++ r.2.1


/-! ## Recovery-fragment splicing machinery -/

/-- Distinguished one-line recovery fragment used to locate the splice points
of the generated code: no line the generators build from their own templates
can ever equal it (every template line ends in one of the characters
brace, semicolon or slash — see `append_ne_oomMarker`). -/
def oomMarker : String := "<<OOM RECOVERY>>"

/-- The marker as a fragment line at depth 0. -/
def markerLine : Line := ⟨0, oomMarker⟩

/-- Replace every marker line of a template by the recovery fragment `oom`,
re-indented to the marker's depth.  Running the generator on `oom` agrees
with expanding the generator's `[markerLine]` template this way
(`marshal_oom_master`). -/
def spliceOom (oom : List Line) (ls : List Line) : List Line :=
  ls.flatMap fun l =>
    if l.text = oomMarker then oom.map (fun o => ⟨o.depth + l.depth, o.text⟩)
    else [l]

/-- Number of splice points (marker lines) in a template. -/
def oomPoints (ls : List Line) : Nat := ls.countP fun l => l.text == oomMarker

/-- Shape invariant of templates: every marker line sits directly under a
guard line (text ending in `)) {`), one level deeper than it, and is followed
directly by the closing brace of the guard at the guard's level. -/
inductive GuardedSplices : List Line → Prop where
  | nil : GuardedSplices []
  | plain (l : Line) (rest : List Line) (hl : l.text ≠ oomMarker)
      (h : GuardedSplices rest) : GuardedSplices (l :: rest)
  | splice (d : Nat) (g : String) (hg : ∃ p, g = p ++ ")) \x7b")
      (rest : List Line) (h : GuardedSplices rest) :
      GuardedSplices (⟨d, g⟩ :: ⟨d + 1, oomMarker⟩ :: ⟨d, "\x7d"⟩ :: rest)


/-- The per-element property established by `marshal_oom_master`: the
variable lists do not depend on the recovery fragment; the generated code is
the `[markerLine]` template with the recovery fragment spliced (re-indented)
at the marker lines; the template has exactly one marker per fallible writer
operation; and every marker sits in guard position. -/
def MarshalOomSpec (s : Sig) : Prop :=
  ∀ (it n : String) (oom : List Line),
    (marshal s it n oom).2 = (marshal s it n [markerLine]).2 ∧
    (marshal s it n oom).1 = spliceOom oom ((marshal s it n [markerLine]).1) ∧
    oomPoints ((marshal s it n [markerLine]).1) = fallibleWriterOps s ∧
    GuardedSplices ((marshal s it n [markerLine]).1)


/-! ## String facts used throughout -/

/-- `strDrop` agrees with `String.drop`. -/
theorem strDrop_eq (s : String) (n : Nat) : strDrop s n = s.drop n :=
  (String.drop_eq s n).symm

/-- Dropping the length of a leading component recovers the suffix. -/
theorem strDrop_append (a b : String) : strDrop (a ++ b) a.length = b := by
  apply String.ext
  show ((a ++ b).data).drop a.data.length = b.data
  rw [String.data_append]
  exact List.drop_left a.data b.data

/-- Dropping a whole string leaves the empty string. -/
theorem strDrop_len_self (a : String) : strDrop a a.length = "" := by
  apply String.ext
  show a.data.drop a.data.length = ("" : String).data
  rw [List.drop_length]

/-- Left cancellation for string append. -/
theorem strApp_left_cancel {a b c : String} (h : a ++ b = a ++ c) : b = c := by
  apply String.ext
  have h2 := congrArg String.data h
  rw [String.data_append, String.data_append] at h2
  exact List.append_cancel_left h2

/-- Appending a non-empty string changes a string. -/
theorem self_ne_append {s t : String} (ht : t.data ≠ []) : s ≠ s ++ t := by
  intro h
  have h2 := congrArg String.data h
  rw [String.data_append] at h2
  have h3 := congrArg List.length h2
  rw [List.length_append] at h3
  have h4 : t.data.length = 0 := by omega
  exact ht (List.length_eq_zero.mp h4)

/-- Structural induction principle for `Sig` giving the member-wise
hypothesis for struct/entry elements (the nested `List Sig` recursion). -/
theorem Sig.recAux {P : Sig → Prop}
    (hb : ∀ c, P (.basic c))
    (ha : ∀ e, P e → P (.array e))
    (hs : ∀ en ct ms, (∀ m ∈ ms, P m) → P (.strct en ct ms)) :
    ∀ s, P s := by
  have key : ∀ (k : Nat) (s : Sig), sizeOf s ≤ k → P s := by
    intro k
    induction k with
    | zero =>
        intro s h
        cases s <;> simp_arith at h
    | succ k ih =>
        intro s h
        cases s with
        | basic c => exact hb c
        | array e =>
            refine ha e (ih e ?_)
            have : sizeOf (Sig.array e) = 1 + sizeOf e := by simp
            omega
        | strct en ct ms =>
            refine hs en ct ms (fun m hm => ih m ?_)
            have h1 : sizeOf m < sizeOf ms := List.sizeOf_lt_of_mem hm
            have h2 : sizeOf (Sig.strct en ct ms) = 1 + sizeOf en + sizeOf ct + sizeOf ms := by
              simp
            omega
  exact fun s => key (sizeOf s) s le_rfl

/-! ## Unfolding the generators -/

/-- Dispatch equation: a basic element is forwarded to `marshal_basic` with
all arguments unchanged. -/
theorem marshal_basic_run (c : Int) (it n : String) (oom : List Line) :
    marshal (.basic c) it n oom = marshal_basic c it n oom := rfl

/-- Inputs of an array call: the element call's inputs promoted to read-only
pointers and re-prefixed, then the `size_t` length input when the element
type is fixed-size. -/
theorem marshal_array_inputs (e : Sig) (it n : String) (oom : List Line) :
    (marshal (.array e) it n oom).2.1 =
      (marshal e (n ++ "_iter") (n ++ "_element") oom).2.1.map (fun iv =>
        ⟨type_to_const (type_to_pointer iv.type),
         n ++ strDrop iv.name (n ++ "_element").length⟩)
      ++ (if dbus_type_is_fixed e.currentTypeCode
          then [⟨"size_t", n ++ "_len"⟩] else []) := rfl

/-- Locals of an array call: exactly the container iterator. -/
theorem marshal_array_locals (e : Sig) (it n : String) (oom : List Line) :
    (marshal (.array e) it n oom).2.2 = [⟨"DBusMessageIter", n ++ "_iter"⟩] := rfl

/-- Code of an array call, laid out as in marshal_array(). -/
theorem marshal_array_code (e : Sig) (it n : String) (oom : List Line) :
    (marshal (.array e) it n oom).1 =
      ([⟨0, "/* Marshal an array onto the message */"⟩,
        ⟨0, "if (! dbus_message_iter_open_container (&" ++ it ++
            ", DBUS_TYPE_ARRAY, \"" ++ signatureOf e ++ "\", &" ++
            (n ++ "_iter") ++ ")) \x7b"⟩]
       ++ indentLines oom ++ [⟨0, "\x7d"⟩, ⟨0, ""⟩])
      ++ [if dbus_type_is_fixed e.currentTypeCode then
            ⟨0, "for (size_t " ++ (n ++ "_i") ++ " = 0; " ++ (n ++ "_i") ++
                " < " ++ (n ++ "_len") ++ "; " ++ (n ++ "_i") ++ "++) \x7b"⟩
          else
            ⟨0, "for (size_t " ++ (n ++ "_i") ++ " = 0; " ++ n ++ "[" ++
                (n ++ "_i") ++ "]; " ++ (n ++ "_i") ++ "++) \x7b"⟩]
      ++ indentLines
           (((marshal e (n ++ "_iter") (n ++ "_element") oom).2.2 ++
             (marshal e (n ++ "_iter") (n ++ "_element") oom).2.1).map fun lv =>
              ⟨0, lv.type ++ " " ++ lv.name ++ ";"⟩)
      ++ [⟨0, ""⟩]
      ++ indentLines
           ((marshal e (n ++ "_iter") (n ++ "_element") oom).2.1.map fun iv =>
              ⟨0, iv.name ++ " = " ++
                  (n ++ strDrop iv.name (n ++ "_element").length) ++ "[" ++
                  (n ++ "_i") ++ "];"⟩)
      ++ [⟨0, ""⟩]
      ++ indentLines (marshal e (n ++ "_iter") (n ++ "_element") oom).1
      ++ ([⟨0, "\x7d"⟩, ⟨0, ""⟩,
           ⟨0, "if (! dbus_message_iter_close_container (&" ++ it ++ ", &" ++
               (n ++ "_iter") ++ ")) \x7b"⟩]
          ++ indentLines oom ++ [⟨0, "\x7d"⟩]) := rfl

/-- Inputs of a struct/entry call: exactly the read-only aggregate pointer. -/
theorem marshal_struct_inputs (en : Bool) (ct : String) (ms : List Sig)
    (it n : String) (oom : List Line) :
    (marshal (.strct en ct ms) it n oom).2.1 = [⟨type_to_const ct, n⟩] := rfl

/-- Locals of a struct/entry call: the container iterator followed by the
member loop's reclassified variables. -/
theorem marshal_struct_locals (en : Bool) (ct : String) (ms : List Sig)
    (it n : String) (oom : List Line) :
    (marshal (.strct en ct ms) it n oom).2.2 =
      ⟨"DBusMessageIter", n ++ "_iter"⟩ ::
        (marshal_struct_items (n ++ "_iter") n oom 0 ms).2 := rfl

/-- Code of a struct/entry call, laid out as in marshal_struct(). -/
theorem marshal_struct_code (en : Bool) (ct : String) (ms : List Sig)
    (it n : String) (oom : List Line) :
    (marshal (.strct en ct ms) it n oom).1 =
      ([⟨0, "/* Marshal a structure onto the message */"⟩,
        ⟨0, "if (! dbus_message_iter_open_container (&" ++ it ++ ", " ++
            type_const (Sig.strct en ct ms).currentTypeCode ++ ", NULL, &" ++
            (n ++ "_iter") ++ ")) \x7b"⟩]
       ++ indentLines oom ++ [⟨0, "\x7d"⟩, ⟨0, ""⟩])
      ++ (marshal_struct_items (n ++ "_iter") n oom 0 ms).1
      ++ ([⟨0, "if (! dbus_message_iter_close_container (&" ++ it ++ ", &" ++
              (n ++ "_iter") ++ ")) \x7b"⟩]
          ++ indentLines oom ++ [⟨0, "\x7d"⟩]) := rfl

/-- Only basic elements have a fixed-size current type code. -/
theorem fixed_elem_basic {e : Sig}
    (h : dbus_type_is_fixed e.currentTypeCode = true) : ∃ c, e = .basic c := by
  cases e with
  | basic c => exact ⟨c, rfl⟩
  | array e2 =>
      rw [show (Sig.array e2).currentTypeCode = DBUS_TYPE_ARRAY from rfl] at h
      exact absurd h (by decide)
  | strct en ct ms =>
      cases en with
      | false =>
          rw [show (Sig.strct false ct ms).currentTypeCode = DBUS_TYPE_STRUCT from rfl] at h
          exact absurd h (by decide)
      | true =>
          rw [show (Sig.strct true ct ms).currentTypeCode = DBUS_TYPE_DICT_ENTRY from rfl] at h
          exact absurd h (by decide)

/-! ## Member loop characterization -/

/-- The member loop is the concatenation of the per-member segments and
variable lists, in ordinal order. -/
theorem marshal_struct_items_eq (sin nm : String) (oom : List Line) :
    ∀ (ms : List Sig) (c : Nat),
      marshal_struct_items sin nm oom c ms =
        ((ms.enumFrom c).flatMap (structItemSeg sin nm oom),
         (ms.enumFrom c).flatMap (structItemVars sin nm oom)) := by
  intro ms
  induction ms with
  | nil => intro c; rfl
  | cons m rest ih =>
      intro c
      rw [show marshal_struct_items sin nm oom c (m :: rest) =
            (structItemSeg sin nm oom (c, m) ++ (marshal_struct_items sin nm oom (c + 1) rest).1,
             structItemVars sin nm oom (c, m) ++ (marshal_struct_items sin nm oom (c + 1) rest).2) by
            simp [marshal_struct_items, structItemSeg, structItemVars, List.append_assoc]]
      rw [ih (c + 1), List.enumFrom_cons, List.flatMap_cons, List.flatMap_cons]

/-! ## Invariant on input lists -/

/-- Invariant on the input list of every marshal call (claim C5's content):
the first input is named exactly the base name, every input's name extends
the base name, and the names are pairwise distinct. -/
theorem marshal_inputs_spec :
    ∀ (s : Sig) (it n : String) (oom : List Line),
      ((marshal s it n oom).2.1.map TypeVar.name).head? = some n ∧
      (∀ iv ∈ (marshal s it n oom).2.1, ∃ suf, iv.name = n ++ suf) ∧
      ((marshal s it n oom).2.1.map TypeVar.name).Nodup := by
  intro s
  induction s using Sig.recAux with
  | hb c =>
      intro it n oom
      refine ⟨rfl, ?_, by simp [marshal_basic_run, marshal_basic]⟩
      intro iv hiv
      rw [show (marshal (.basic c) it n oom).2.1 =
            [⟨type_to_const (type_of (.basic c)), n⟩] from rfl] at hiv
      rw [List.mem_singleton] at hiv
      exact ⟨"", by rw [hiv, String.append_empty]⟩
  | ha e ih =>
      intro it n oom
      obtain ⟨hhead, hpre, hnodup⟩ := ih (n ++ "_iter") (n ++ "_element") oom
      set el := (marshal e (n ++ "_iter") (n ++ "_element") oom).2.1 with hel
      have hmap :
          (el.map fun iv =>
              (⟨type_to_const (type_to_pointer iv.type),
                n ++ strDrop iv.name (n ++ "_element").length⟩ : TypeVar)).map TypeVar.name =
            (el.map TypeVar.name).map
              (fun x => n ++ strDrop x (n ++ "_element").length) := by
        simp [List.map_map]
      constructor
      · -- first input is named exactly n
        rw [marshal_array_inputs, List.map_append, List.head?_append, hmap]
        cases hcase : el.map TypeVar.name with
        | nil => rw [hcase] at hhead; simp at hhead
        | cons x rest =>
            rw [hcase] at hhead
            simp only [List.head?_cons, Option.some.injEq] at hhead
            simp only [hcase, List.map_cons, List.head?_cons]
            rw [hhead, strDrop_len_self, String.append_empty]
            rfl
      constructor
      · -- every name extends n
        intro iv hiv
        rw [marshal_array_inputs, List.mem_append] at hiv
        rcases hiv with hiv | hiv
        · rw [List.mem_map] at hiv
          obtain ⟨iv0, _, hiv0⟩ := hiv
          exact ⟨strDrop iv0.name (n ++ "_element").length, by rw [← hiv0]⟩
        · rcases hfix : dbus_type_is_fixed e.currentTypeCode with _ | _ <;>
            rw [hfix] at hiv
          · simp at hiv
          · rw [if_pos rfl, List.mem_singleton] at hiv
            exact ⟨"_len", by rw [hiv]⟩
      · -- names are pairwise distinct
        rw [marshal_array_inputs, List.map_append, hmap]
        have hnodup2 :
            ((el.map TypeVar.name).map
              (fun x => n ++ strDrop x (n ++ "_element").length)).Nodup := by
          refine List.Nodup.map_on ?_ hnodup
          intro x hx y hy hxy
          obtain ⟨ivx, hivx, hivx2⟩ := List.mem_map.mp hx
          obtain ⟨ivy, hivy, hivy2⟩ := List.mem_map.mp hy
          obtain ⟨sufx, hsufx⟩ := hpre ivx hivx
          obtain ⟨sufy, hsufy⟩ := hpre ivy hivy
          rw [← hivx2, ← hivy2, hsufx, hsufy, strDrop_append, strDrop_append] at hxy
          rw [← hivx2, ← hivy2, hsufx, hsufy, strApp_left_cancel hxy]
        rcases hfix : dbus_type_is_fixed e.currentTypeCode with _ | _
        · rw [if_neg (by simp), List.map_nil, List.append_nil]
          exact hnodup2
        · rw [if_pos rfl]
          obtain ⟨c, hc⟩ := fixed_elem_basic hfix
          subst hc
          rw [hel]
          rw [show (marshal (.basic c) (n ++ "_iter") (n ++ "_element") oom).2.1 =
                [⟨type_to_const (type_of (.basic c)), n ++ "_element"⟩] from rfl]
          simp only [List.map_cons, List.map_nil, List.map_singleton]
          rw [strDrop_len_self, String.append_empty]
          refine List.nodup_cons.mpr ⟨?_, List.nodup_singleton _⟩
          show n ∉ [n ++ "_len"]
          rw [List.mem_singleton]
          exact self_ne_append (by decide)
  | hs en ct ms ih =>
      intro it n oom
      refine ⟨rfl, ?_, by simp [marshal_struct_inputs]⟩
      intro iv hiv
      rw [marshal_struct_inputs, List.mem_singleton] at hiv
      exact ⟨"", by rw [hiv, String.append_empty]⟩

/-- Last character of an append is the last character of its non-empty
second part. -/
theorem getLast_append_str (s t : String) (ht : t.data ≠ []) :
    (s ++ t).data.getLast? = t.data.getLast? := by
  rw [String.data_append, List.getLast?_append]
  exact Option.or_of_isSome (by rwa [List.getLast?_isSome])

/-- No string ending in a character other than the marker's closing chevron
is the marker; in particular no generated template line is (they all end in
a brace, semicolon, slash or bracket). -/
theorem append_ne_oomMarker (s t : String) (ht : t.data ≠ [])
    (hc : t.data.getLast? ≠ some '>') : s ++ t ≠ oomMarker := by
  intro h
  have h2 : (s ++ t).data.getLast? = some '>' := by rw [h]; decide
  rw [getLast_append_str s t ht] at h2
  exact hc h2

/-- Splicing distributes over concatenation. -/
theorem spliceOom_append (oom xs ys : List Line) :
    spliceOom oom (xs ++ ys) = spliceOom oom xs ++ spliceOom oom ys :=
  List.flatMap_append xs ys _

/-- Splicing a marker-free block is the identity. -/
theorem spliceOom_of_forall (oom : List Line) {ls : List Line}
    (h : ∀ l ∈ ls, l.text ≠ oomMarker) : spliceOom oom ls = ls := by
  induction ls with
  | nil => rfl
  | cons l rest ih =>
      rw [show spliceOom oom (l :: rest) =
            (if l.text = oomMarker then oom.map (fun o => ⟨o.depth + l.depth, o.text⟩)
             else [l]) ++ spliceOom oom rest from List.flatMap_cons ..]
      rw [if_neg (h l (List.mem_cons_self l rest)),
          ih (fun x hx => h x (List.mem_cons_of_mem l hx))]
      rfl

/-- Splicing a single plain line is the identity. -/
theorem spliceOom_plain (oom : List Line) {l : Line} (hl : l.text ≠ oomMarker) :
    spliceOom oom [l] = [l] :=
  spliceOom_of_forall oom (by simpa using hl)

/-- Splicing a marker at depth `d` yields the fragment re-indented by `d`. -/
theorem spliceOom_marker_at (oom : List Line) (d : Nat) :
    spliceOom oom [⟨d, oomMarker⟩] = oom.map (fun o => ⟨o.depth + d, o.text⟩) := by
  rw [show spliceOom oom [⟨d, oomMarker⟩] =
        (if oomMarker = oomMarker then oom.map (fun o => ⟨o.depth + d, o.text⟩)
         else [⟨d, oomMarker⟩]) ++ spliceOom oom [] from List.flatMap_cons ..]
  rw [if_pos rfl]
  exact List.append_nil _

/-- Splicing commutes with re-indentation. -/
theorem spliceOom_indent (oom ls : List Line) :
    spliceOom oom (indentLines ls) = indentLines (spliceOom oom ls) := by
  induction ls with
  | nil => rfl
  | cons l rest ih =>
      show spliceOom oom (⟨l.depth + 1, l.text⟩ :: indentLines rest) = _
      rw [show spliceOom oom (⟨l.depth + 1, l.text⟩ :: indentLines rest) =
            (if l.text = oomMarker then
               oom.map (fun o => ⟨o.depth + (l.depth + 1), o.text⟩)
             else [⟨l.depth + 1, l.text⟩]) ++ spliceOom oom (indentLines rest)
          from List.flatMap_cons ..]
      rw [show spliceOom oom (l :: rest) =
            (if l.text = oomMarker then oom.map (fun o => ⟨o.depth + l.depth, o.text⟩)
             else [l]) ++ spliceOom oom rest from List.flatMap_cons ..]
      by_cases hl : l.text = oomMarker
      · rw [if_pos hl, if_pos hl, ih]
        simp only [indentLines, List.map_append, List.map_map]
        exact congrArg (· ++ _) (by simp [Nat.add_assoc])
      · rw [if_neg hl, if_neg hl, ih]
        simp [indentLines]

/-- Counting splice points distributes over concatenation. -/
theorem oomPoints_append (xs ys : List Line) :
    oomPoints (xs ++ ys) = oomPoints xs + oomPoints ys :=
  List.countP_append _ xs ys

/-- Re-indentation does not change the splice points. -/
theorem oomPoints_indent (ls : List Line) :
    oomPoints (indentLines ls) = oomPoints ls := by
  show (ls.map fun l => (⟨l.depth + 1, l.text⟩ : Line)).countP _ = _
  rw [List.countP_map]
  rfl

/-- A marker-free block has no splice points. -/
theorem oomPoints_of_forall {ls : List Line}
    (h : ∀ l ∈ ls, l.text ≠ oomMarker) : oomPoints ls = 0 := by
  refine List.countP_eq_zero.mpr ?_
  intro l hl
  simpa using h l hl

/-- A marker line is one splice point. -/
theorem oomPoints_marker (d : Nat) : oomPoints [⟨d, oomMarker⟩] = 1 := by
  simp [oomPoints]

/-- Concatenating guarded templates is guarded. -/
theorem GuardedSplices.append {xs ys : List Line}
    (hx : GuardedSplices xs) (hy : GuardedSplices ys) :
    GuardedSplices (xs ++ ys) := by
  induction hx with
  | nil => simpa using hy
  | plain l rest hl _ ih => exact .plain l _ hl ih
  | splice d g hg rest _ ih => exact .splice d g hg _ ih

/-- Re-indenting a guarded template keeps it guarded. -/
theorem GuardedSplices.indent {xs : List Line} (hx : GuardedSplices xs) :
    GuardedSplices (indentLines xs) := by
  induction hx with
  | nil => exact .nil
  | plain l rest hl _ ih => exact .plain ⟨l.depth + 1, l.text⟩ _ hl ih
  | splice d g hg rest _ ih => exact .splice (d + 1) g hg _ ih

/-- A marker-free block is (vacuously) guarded. -/
theorem GuardedSplices.ofForall {ls : List Line}
    (h : ∀ l ∈ ls, l.text ≠ oomMarker) : GuardedSplices ls := by
  induction ls with
  | nil => exact .nil
  | cons l rest ih =>
      exact .plain l _ (h l (List.mem_cons_self l rest))
        (ih fun x hx => h x (List.mem_cons_of_mem l hx))

/-- Marker-freeness of an empty block. -/
theorem markerFree_nil : ∀ l ∈ ([] : List Line), l.text ≠ oomMarker := by
  intro l hl
  cases hl

/-- Marker-freeness extends through cons. -/
theorem markerFree_cons {a : Line} {rest : List Line} (ha : a.text ≠ oomMarker)
    (h : ∀ l ∈ rest, l.text ≠ oomMarker) :
    ∀ l ∈ a :: rest, l.text ≠ oomMarker := by
  intro l hl
  rcases List.mem_cons.mp hl with rfl | hl
  · exact ha
  · exact h l hl

/-- Local-variable declaration lines are never the marker (they end in a
semicolon). -/
theorem declLines_markerFree (L : List TypeVar) :
    ∀ l ∈ L.map (fun lv => (⟨0, lv.type ++ " " ++ lv.name ++ ";"⟩ : Line)),
      l.text ≠ oomMarker := by
  intro l hl
  obtain ⟨lv, _, rfl⟩ := List.mem_map.mp hl
  exact append_ne_oomMarker _ _ (by decide) (by decide)

/-- Per-iteration element assignments are never the marker (they end in a
bracket and semicolon). -/
theorem arrAssign_markerFree (L : List TypeVar) (n : String) (K : Nat) (loop : String) :
    ∀ l ∈ L.map (fun iv =>
        (⟨0, iv.name ++ " = " ++ (n ++ strDrop iv.name K) ++ "[" ++ loop ++ "];"⟩ : Line)),
      l.text ≠ oomMarker := by
  intro l hl
  obtain ⟨iv, _, rfl⟩ := List.mem_map.mp hl
  exact append_ne_oomMarker _ _ (by decide) (by decide)

/-- Struct field-read assignments are never the marker (they end in a
semicolon). -/
theorem structAssign_markerFree (L : List TypeVar) (nm : String) (cnt : Nat) (K : Nat) :
    ∀ l ∈ L.map (fun iv =>
        (⟨0, iv.name ++ " = " ++ nm ++ "->item" ++ toString cnt ++
             strDrop iv.name K ++ ";"⟩ : Line)),
      l.text ≠ oomMarker := by
  intro l hl
  obtain ⟨iv, _, rfl⟩ := List.mem_map.mp hl
  exact append_ne_oomMarker _ _ (by decide) (by decide)

/-- Splicing the marker line at depth one yields the fragment re-indented by
one level. -/
theorem spliceOom_marker_one (oom : List Line) :
    spliceOom oom [⟨1, oomMarker⟩] = indentLines oom :=
  spliceOom_marker_at oom 1

/-- One unfolding step of the member loop. -/
theorem marshal_struct_items_cons (sin nm : String) (oom : List Line) (c : Nat)
    (m : Sig) (rest : List Sig) :
    marshal_struct_items sin nm oom c (m :: rest) =
      ((marshal m sin (nm ++ "_item" ++ toString c) oom).2.1.map (fun iv =>
          (⟨0, iv.name ++ " = " ++ nm ++ "->item" ++ toString c ++
               strDrop iv.name (nm ++ "_item" ++ toString c).length ++ ";"⟩ : Line))
        ++ [⟨0, ""⟩] ++ (marshal m sin (nm ++ "_item" ++ toString c) oom).1
        ++ [⟨0, ""⟩] ++ (marshal_struct_items sin nm oom (c + 1) rest).1,
       ((marshal m sin (nm ++ "_item" ++ toString c) oom).2.2 ++
          (marshal m sin (nm ++ "_item" ++ toString c) oom).2.1) ++
        (marshal_struct_items sin nm oom (c + 1) rest).2) := rfl

/-- Recovery splicing property for the struct member loop, given it for the
members. -/
theorem marshal_struct_items_oom (sin nm : String) :
    ∀ (ms : List Sig), (∀ m ∈ ms, MarshalOomSpec m) →
      ∀ (c : Nat) (oom : List Line),
      (marshal_struct_items sin nm oom c ms).2 =
        (marshal_struct_items sin nm [markerLine] c ms).2 ∧
      (marshal_struct_items sin nm oom c ms).1 =
        spliceOom oom ((marshal_struct_items sin nm [markerLine] c ms).1) ∧
      oomPoints ((marshal_struct_items sin nm [markerLine] c ms).1) =
        fallibleWriterOpsList ms ∧
      GuardedSplices ((marshal_struct_items sin nm [markerLine] c ms).1) := by
  intro ms
  induction ms with
  | nil => exact fun _ c oom => ⟨rfl, rfl, rfl, .nil⟩
  | cons m rest ih =>
      intro hP c oom
      obtain ⟨hv, hc1, hcnt, hg⟩ :=
        hP m (List.mem_cons_self m rest) sin (nm ++ "_item" ++ toString c) oom
      obtain ⟨ihv, ihc, ihcnt, ihg⟩ :=
        ih (fun x hx => hP x (List.mem_cons_of_mem m hx)) (c + 1) oom
      have hv1 : (marshal m sin (nm ++ "_item" ++ toString c) oom).2.1 =
          (marshal m sin (nm ++ "_item" ++ toString c) [markerLine]).2.1 := by rw [hv]
      have hv2 : (marshal m sin (nm ++ "_item" ++ toString c) oom).2.2 =
          (marshal m sin (nm ++ "_item" ++ toString c) [markerLine]).2.2 := by rw [hv]
      have hblank : (⟨0, ""⟩ : Line).text ≠ oomMarker := by decide
      refine ⟨?_, ?_, ?_, ?_⟩
      · rw [marshal_struct_items_cons, marshal_struct_items_cons, hv1, hv2, ihv]
      · rw [marshal_struct_items_cons, marshal_struct_items_cons, hv1, hc1, ihc]
        simp only [spliceOom_append]
        rw [spliceOom_of_forall oom
              (structAssign_markerFree _ nm c (nm ++ "_item" ++ toString c).length),
            spliceOom_plain oom hblank]
      · rw [marshal_struct_items_cons]
        simp only [oomPoints_append]
        rw [oomPoints_of_forall
              (structAssign_markerFree _ nm c (nm ++ "_item" ++ toString c).length),
            oomPoints_of_forall (markerFree_cons hblank markerFree_nil),
            hcnt, ihcnt,
            show fallibleWriterOpsList (m :: rest) =
              fallibleWriterOps m + fallibleWriterOpsList rest from rfl]
        omega
      · rw [marshal_struct_items_cons]
        exact ((((GuardedSplices.ofForall
            (structAssign_markerFree _ nm c (nm ++ "_item" ++ toString c).length)).append
          (GuardedSplices.ofForall (markerFree_cons hblank markerFree_nil))).append
            hg).append
          (GuardedSplices.ofForall (markerFree_cons hblank markerFree_nil))).append ihg

/-- Master recovery-splicing theorem: for every signature element the
generated code is the marker template with the caller's recovery fragment
spliced in, the template has one marker per fallible writer operation, and
every marker sits in guard position. -/
theorem marshal_oom_master : ∀ s, MarshalOomSpec s := by
  intro s
  induction s using Sig.recAux with
  | hb c =>
      intro it n oom
      have hA : (⟨0, "/* Marshal a " ++ type_to_const (type_of (.basic c)) ++
          " onto the message */"⟩ : Line).text ≠ oomMarker :=
        append_ne_oomMarker _ _ (by decide) (by decide)
      have hG : (⟨0, "if (! dbus_message_iter_append_basic (&" ++ it ++ ", " ++
          type_const c ++ ", &" ++ n ++ ")) \x7b"⟩ : Line).text ≠ oomMarker :=
        append_ne_oomMarker _ _ (by decide) (by decide)
      have hbrace : (⟨0, "\x7d"⟩ : Line).text ≠ oomMarker := by decide
      have hcode : ∀ oo : List Line, (marshal (.basic c) it n oo).1 =
          [⟨0, "/* Marshal a " ++ type_to_const (type_of (.basic c)) ++
               " onto the message */"⟩,
           ⟨0, "if (! dbus_message_iter_append_basic (&" ++ it ++ ", " ++
               type_const c ++ ", &" ++ n ++ ")) \x7b"⟩]
          ++ indentLines oo ++ [⟨0, "\x7d"⟩] := fun _ => rfl
      refine ⟨rfl, ?_, ?_, ?_⟩
      · rw [hcode oom, hcode [markerLine],
            show indentLines [markerLine] = [⟨1, oomMarker⟩] from rfl]
        simp only [spliceOom_append]
        rw [spliceOom_of_forall oom (markerFree_cons hA (markerFree_cons hG markerFree_nil)),
            spliceOom_marker_one,
            spliceOom_plain oom hbrace]
      · rw [hcode [markerLine],
            show indentLines [markerLine] = [⟨1, oomMarker⟩] from rfl]
        simp only [oomPoints_append]
        rw [oomPoints_of_forall (markerFree_cons hA (markerFree_cons hG markerFree_nil)),
            oomPoints_marker,
            oomPoints_of_forall (markerFree_cons hbrace markerFree_nil)]
        rfl
      · rw [hcode [markerLine],
            show indentLines [markerLine] = [⟨1, oomMarker⟩] from rfl]
        exact .plain _ _ hA (.splice 0 _ ⟨_, rfl⟩ _ .nil)
  | ha e ih =>
      intro it n oom
      obtain ⟨ihv, ihc, ihcnt, ihg⟩ := ih (n ++ "_iter") (n ++ "_element") oom
      have ihv1 : (marshal e (n ++ "_iter") (n ++ "_element") oom).2.1 =
          (marshal e (n ++ "_iter") (n ++ "_element") [markerLine]).2.1 := by rw [ihv]
      have ihv2 : (marshal e (n ++ "_iter") (n ++ "_element") oom).2.2 =
          (marshal e (n ++ "_iter") (n ++ "_element") [markerLine]).2.2 := by rw [ihv]
      have hcomment : (⟨0, "/* Marshal an array onto the message */"⟩ : Line).text ≠
          oomMarker := by decide
      have hg1 : (⟨0, "if (! dbus_message_iter_open_container (&" ++ it ++
          ", DBUS_TYPE_ARRAY, \"" ++ signatureOf e ++ "\", &" ++ (n ++ "_iter") ++
          ")) \x7b"⟩ : Line).text ≠ oomMarker :=
        append_ne_oomMarker _ _ (by decide) (by decide)
      have hgc : (⟨0, "if (! dbus_message_iter_close_container (&" ++ it ++ ", &" ++
          (n ++ "_iter") ++ ")) \x7b"⟩ : Line).text ≠ oomMarker :=
        append_ne_oomMarker _ _ (by decide) (by decide)
      have hbrace : (⟨0, "\x7d"⟩ : Line).text ≠ oomMarker := by decide
      have hblank : (⟨0, ""⟩ : Line).text ≠ oomMarker := by decide
      have hfl : (if dbus_type_is_fixed e.currentTypeCode then
            (⟨0, "for (size_t " ++ (n ++ "_i") ++ " = 0; " ++ (n ++ "_i") ++ " < " ++
                (n ++ "_len") ++ "; " ++ (n ++ "_i") ++ "++) \x7b"⟩ : Line)
          else
            ⟨0, "for (size_t " ++ (n ++ "_i") ++ " = 0; " ++ n ++ "[" ++
                (n ++ "_i") ++ "]; " ++ (n ++ "_i") ++ "++) \x7b"⟩).text ≠ oomMarker := by
        by_cases hfix : dbus_type_is_fixed e.currentTypeCode = true
        · rw [if_pos hfix]
          exact append_ne_oomMarker _ _ (by decide) (by decide)
        · rw [if_neg hfix]
          exact append_ne_oomMarker _ _ (by decide) (by decide)
      have hvars : ∀ oo : List Line, (marshal (.array e) it n oo).2 =
          ((marshal e (n ++ "_iter") (n ++ "_element") oo).2.1.map (fun iv =>
              ⟨type_to_const (type_to_pointer iv.type),
               n ++ strDrop iv.name (n ++ "_element").length⟩)
            ++ (if dbus_type_is_fixed e.currentTypeCode
                then [⟨"size_t", n ++ "_len"⟩] else []),
           [⟨"DBusMessageIter", n ++ "_iter"⟩]) := fun _ => rfl
      refine ⟨?_, ?_, ?_, ?_⟩
      · rw [hvars oom, hvars [markerLine], ihv1]
      · rw [marshal_array_code e it n oom, marshal_array_code e it n [markerLine],
            show indentLines [markerLine] = [⟨1, oomMarker⟩] from rfl,
            ← ihv1, ← ihv2]
        simp only [spliceOom_append]
        rw [spliceOom_of_forall oom
              (markerFree_cons hcomment (markerFree_cons hg1 markerFree_nil)),
            spliceOom_marker_one,
            spliceOom_of_forall oom
              (markerFree_cons hbrace (markerFree_cons hblank markerFree_nil)),
            spliceOom_plain oom hfl,
            spliceOom_indent, spliceOom_indent, spliceOom_indent,
            spliceOom_of_forall oom
              (declLines_markerFree ((marshal e (n ++ "_iter") (n ++ "_element") oom).2.2 ++
                (marshal e (n ++ "_iter") (n ++ "_element") oom).2.1)),
            spliceOom_plain oom hblank,
            spliceOom_of_forall oom
              (arrAssign_markerFree ((marshal e (n ++ "_iter") (n ++ "_element") oom).2.1)
                n (n ++ "_element").length (n ++ "_i")),
            ← ihc,
            spliceOom_of_forall oom
              (markerFree_cons hbrace (markerFree_cons hblank
                (markerFree_cons hgc markerFree_nil))),
            spliceOom_plain oom hbrace]
      · rw [marshal_array_code e it n [markerLine],
            show indentLines [markerLine] = [⟨1, oomMarker⟩] from rfl,
            ← ihv1, ← ihv2]
        simp only [oomPoints_append, oomPoints_indent]
        rw [oomPoints_of_forall
              (markerFree_cons hcomment (markerFree_cons hg1 markerFree_nil)),
            oomPoints_marker,
            oomPoints_of_forall
              (markerFree_cons hbrace (markerFree_cons hblank markerFree_nil)),
            oomPoints_of_forall (markerFree_cons hfl markerFree_nil),
            oomPoints_of_forall
              (declLines_markerFree ((marshal e (n ++ "_iter") (n ++ "_element") oom).2.2 ++
                (marshal e (n ++ "_iter") (n ++ "_element") oom).2.1)),
            oomPoints_of_forall (markerFree_cons hblank markerFree_nil),
            oomPoints_of_forall
              (arrAssign_markerFree ((marshal e (n ++ "_iter") (n ++ "_element") oom).2.1)
                n (n ++ "_element").length (n ++ "_i")),
            ihcnt,
            oomPoints_of_forall
              (markerFree_cons hbrace (markerFree_cons hblank
                (markerFree_cons hgc markerFree_nil))),
            oomPoints_of_forall (markerFree_cons hbrace markerFree_nil),
            show fallibleWriterOps (.array e) = 2 + fallibleWriterOps e from rfl]
        omega
      · rw [marshal_array_code e it n [markerLine],
            show indentLines [markerLine] = [⟨1, oomMarker⟩] from rfl,
            ← ihv1, ← ihv2]
        refine (((((((GuardedSplices.plain _ _ hcomment
            (.splice 0 _ ⟨_, rfl⟩ _ (.plain _ _ hblank .nil))).append
          (.plain _ _ hfl .nil)).append
            (GuardedSplices.indent (.ofForall (declLines_markerFree _)))).append
          (.plain _ _ hblank .nil)).append
            (GuardedSplices.indent (.ofForall (arrAssign_markerFree _ n
              (n ++ "_element").length (n ++ "_i"))))).append
          (.plain _ _ hblank .nil)).append
            (GuardedSplices.indent ihg)).append
          (.plain _ _ hbrace (.plain _ _ hblank
            (.splice 0 _ ⟨_, rfl⟩ [] .nil)))
  | hs en ct ms ih =>
      intro it n oom
      obtain ⟨ihv, ihc, ihcnt, ihg⟩ :=
        marshal_struct_items_oom (n ++ "_iter") n ms ih 0 oom
      have hcomment : (⟨0, "/* Marshal a structure onto the message */"⟩ : Line).text ≠
          oomMarker := by decide
      have hg1 : (⟨0, "if (! dbus_message_iter_open_container (&" ++ it ++ ", " ++
          type_const (Sig.strct en ct ms).currentTypeCode ++ ", NULL, &" ++
          (n ++ "_iter") ++ ")) \x7b"⟩ : Line).text ≠ oomMarker :=
        append_ne_oomMarker _ _ (by decide) (by decide)
      have hgc : (⟨0, "if (! dbus_message_iter_close_container (&" ++ it ++ ", &" ++
          (n ++ "_iter") ++ ")) \x7b"⟩ : Line).text ≠ oomMarker :=
        append_ne_oomMarker _ _ (by decide) (by decide)
      have hbrace : (⟨0, "\x7d"⟩ : Line).text ≠ oomMarker := by decide
      have hblank : (⟨0, ""⟩ : Line).text ≠ oomMarker := by decide
      have hvars : ∀ oo : List Line, (marshal (.strct en ct ms) it n oo).2 =
          ([⟨type_to_const ct, n⟩],
           ⟨"DBusMessageIter", n ++ "_iter"⟩ ::
             (marshal_struct_items (n ++ "_iter") n oo 0 ms).2) := fun _ => rfl
      refine ⟨?_, ?_, ?_, ?_⟩
      · rw [hvars oom, hvars [markerLine], ihv]
      · rw [marshal_struct_code en ct ms it n oom,
            marshal_struct_code en ct ms it n [markerLine],
            show indentLines [markerLine] = [⟨1, oomMarker⟩] from rfl]
        simp only [spliceOom_append]
        rw [spliceOom_of_forall oom
              (markerFree_cons hcomment (markerFree_cons hg1 markerFree_nil)),
            spliceOom_marker_one,
            spliceOom_of_forall oom
              (markerFree_cons hbrace (markerFree_cons hblank markerFree_nil)),
            ← ihc,
            spliceOom_of_forall oom (markerFree_cons hgc markerFree_nil),
            spliceOom_plain oom hbrace]
      · rw [marshal_struct_code en ct ms it n [markerLine],
            show indentLines [markerLine] = [⟨1, oomMarker⟩] from rfl]
        simp only [oomPoints_append]
        rw [oomPoints_of_forall
              (markerFree_cons hcomment (markerFree_cons hg1 markerFree_nil)),
            oomPoints_marker,
            oomPoints_of_forall
              (markerFree_cons hbrace (markerFree_cons hblank markerFree_nil)),
            ihcnt,
            oomPoints_of_forall (markerFree_cons hgc markerFree_nil),
            oomPoints_of_forall (markerFree_cons hbrace markerFree_nil),
            show fallibleWriterOps (.strct en ct ms) =
              2 + fallibleWriterOpsList ms from rfl]
        omega
      · rw [marshal_struct_code en ct ms it n [markerLine],
            show indentLines [markerLine] = [⟨1, oomMarker⟩] from rfl]
        refine ((GuardedSplices.plain _ _ hcomment
            (.splice 0 _ ⟨_, rfl⟩ _ (.plain _ _ hblank .nil))).append
          ihg).append
            (.splice 0 _ ⟨_, rfl⟩ _ .nil)

/-- Each member's segment appears contiguously inside the member loop's code,
and its variables are in the loop's variable list. -/
theorem struct_items_member (sin nm : String) (oom : List Line) :
    ∀ (ms : List Sig) (c k : Nat) (hk : k < ms.length),
      (∃ pre post, (marshal_struct_items sin nm oom c ms).1 =
          pre ++ structItemSeg sin nm oom (c + k, ms.get ⟨k, hk⟩) ++ post) ∧
      (∀ v ∈ structItemVars sin nm oom (c + k, ms.get ⟨k, hk⟩),
          v ∈ (marshal_struct_items sin nm oom c ms).2) := by
  intro ms
  induction ms with
  | nil => intro c k hk; simp at hk
  | cons m rest ih =>
      intro c k hk
      cases k with
      | zero =>
          constructor
          · refine ⟨[], (marshal_struct_items sin nm oom (c + 1) rest).1, ?_⟩
            rw [marshal_struct_items_cons]
            show _ = [] ++ structItemSeg sin nm oom (c + 0, m) ++ _
            rw [show c + 0 = c from rfl]
            simp [structItemSeg, List.append_assoc]
          · intro v hv
            rw [marshal_struct_items_cons]
            show v ∈ ((marshal m sin (nm ++ "_item" ++ toString c) oom).2.2 ++
                (marshal m sin (nm ++ "_item" ++ toString c) oom).2.1) ++
              (marshal_struct_items sin nm oom (c + 1) rest).2
            apply List.mem_append_left
            rw [show c + 0 = c from rfl] at hv
            exact hv
      | succ k2 =>
          have hk2 : k2 < rest.length := Nat.lt_of_succ_lt_succ hk
          obtain ⟨⟨pre, post, hcode⟩, hvars⟩ := ih (c + 1) k2 hk2
          have hidx : c + (k2 + 1) = (c + 1) + k2 := by omega
          have hget : (m :: rest).get ⟨k2 + 1, hk⟩ = rest.get ⟨k2, hk2⟩ :=
            List.get_cons_succ
          constructor
          · refine ⟨((marshal m sin (nm ++ "_item" ++ toString c) oom).2.1.map (fun iv =>
                (⟨0, iv.name ++ " = " ++ nm ++ "->item" ++ toString c ++
                     strDrop iv.name (nm ++ "_item" ++ toString c).length ++ ";"⟩ : Line))
              ++ [⟨0, ""⟩] ++ (marshal m sin (nm ++ "_item" ++ toString c) oom).1
              ++ [⟨0, ""⟩]) ++ pre, post, ?_⟩
            rw [marshal_struct_items_cons, hidx, hget, hcode]
            simp [List.append_assoc]
          · intro v hv
            rw [marshal_struct_items_cons]
            show v ∈ ((marshal m sin (nm ++ "_item" ++ toString c) oom).2.2 ++
                (marshal m sin (nm ++ "_item" ++ toString c) oom).2.1) ++
              (marshal_struct_items sin nm oom (c + 1) rest).2
            apply List.mem_append_right
            rw [hidx, hget] at hv
            exact hvars v hv

/-- The promoted (read-only pointer) type of an array input is never the
plain `size_t` of the length input. -/
theorem type_promoted_ne_size_t (t : String) :
    type_to_const (type_to_pointer t) ≠ "size_t" := by
  have hp : (type_to_pointer t).data.getLast? = some '*' := by
    unfold type_to_pointer
    by_cases h : isPointerType t = true
    · rw [if_pos h, getLast_append_str t "*" (by decide)]
      rfl
    · rw [if_neg h, getLast_append_str t " *" (by decide)]
      rfl
  have hnonempty : (type_to_pointer t).data ≠ [] := by
    intro hD
    rw [hD] at hp
    cases hp
  have hc : (type_to_const (type_to_pointer t)).data.getLast? = some '*' := by
    unfold type_to_const
    by_cases h : isPointerType (type_to_pointer t) = true ∧
        (type_to_pointer t).data.take 6 ≠ "const ".data
    · rw [if_pos h, getLast_append_str _ _ hnonempty]
      exact hp
    · rw [if_neg h]
      exact hp
  intro he
  rw [he] at hc
  exact absurd hc (by decide)

/-! ## Claim theorems -/

/-- C1: for an array signature element with base name `N`, each input the
element-level marshal call produced under the synthetic name
`N_element<suffix>` yields exactly one input of the array call named
`N<suffix>`, whose type is the element input's type promoted to pointer-to
form and then const-qualified, and the promoted inputs appear in the array
call's input list in the element generator's left-to-right order (before the
optional length input). -/
theorem C1_array_input_promotion (e : Sig) (it n : String) (oom : List Line) :
    (marshal (.array e) it n oom).2.1 =
      (marshal e (n ++ "_iter") (n ++ "_element") oom).2.1.map (fun iv =>
        ⟨type_to_const (type_to_pointer iv.type),
         n ++ strDrop iv.name (n ++ "_element").length⟩)
      ++ (if dbus_type_is_fixed e.currentTypeCode
          then [⟨"size_t", n ++ "_len"⟩] else []) ∧
    ∀ iv ∈ (marshal e (n ++ "_iter") (n ++ "_element") oom).2.1,
      ∃ suf, iv.name = (n ++ "_element") ++ suf ∧
        n ++ strDrop iv.name (n ++ "_element").length = n ++ suf := by
  refine ⟨marshal_array_inputs e it n oom, ?_⟩
  intro iv hiv
  obtain ⟨suf, hsuf⟩ :=
    (marshal_inputs_spec e (n ++ "_iter") (n ++ "_element") oom).2.1 iv hiv
  exact ⟨suf, hsuf, by rw [hsuf, strDrop_append]⟩

/-- Witness for C1 at an array of strings named `names`. -/
theorem C1_array_input_promotion_witness :
    (marshal (.array (.basic DBUS_TYPE_STRING)) "iter" "names"
        [⟨0, "return -1;"⟩]).2.1 =
      (marshal (.basic DBUS_TYPE_STRING) ("names" ++ "_iter") ("names" ++ "_element")
          [⟨0, "return -1;"⟩]).2.1.map (fun iv =>
        ⟨type_to_const (type_to_pointer iv.type),
         "names" ++ strDrop iv.name ("names" ++ "_element").length⟩)
      ++ (if dbus_type_is_fixed (Sig.basic DBUS_TYPE_STRING).currentTypeCode
          then [⟨"size_t", "names" ++ "_len"⟩] else []) ∧
    ∀ iv ∈ (marshal (.basic DBUS_TYPE_STRING) ("names" ++ "_iter")
        ("names" ++ "_element") [⟨0, "return -1;"⟩]).2.1,
      ∃ suf, iv.name = ("names" ++ "_element") ++ suf ∧
        "names" ++ strDrop iv.name ("names" ++ "_element").length = "names" ++ suf :=
  C1_array_input_promotion (.basic DBUS_TYPE_STRING) "iter" "names"
    [⟨0, "return -1;"⟩]

/-- C2: a struct or dict-entry call appends exactly one input to the
caller's input list — the read-only native aggregate pointer type paired
with the base name — regardless of the members; no member-level input is
ever propagated into the caller's input list. -/
theorem C2_struct_single_input (en : Bool) (ct : String) (ms : List Sig)
    (it n : String) (oom : List Line) :
    (marshal (.strct en ct ms) it n oom).2.1 =
      [⟨type_to_const (type_of (.strct en ct ms)), n⟩] :=
  marshal_struct_inputs en ct ms it n oom

/-- C4: a distinct `size_t` length input named `N_len` is appended to the
array call's input list iff the array's immediate element type is
fixed-size; the emitted loop is counted and bounded by `N_len` in the
fixed-size case and terminates at the first null entry of the `N` array
itself in the variable-size case. -/
theorem C4_array_length_iff_fixed (e : Sig) (it n : String) (oom : List Line) :
    ((⟨"size_t", n ++ "_len"⟩ : TypeVar) ∈ (marshal (.array e) it n oom).2.1 ↔
      dbus_type_is_fixed e.currentTypeCode = true) ∧
    (marshal (.array e) it n oom).2.1 =
      (marshal e (n ++ "_iter") (n ++ "_element") oom).2.1.map (fun iv =>
        ⟨type_to_const (type_to_pointer iv.type),
         n ++ strDrop iv.name (n ++ "_element").length⟩)
      ++ (if dbus_type_is_fixed e.currentTypeCode
          then [⟨"size_t", n ++ "_len"⟩] else []) ∧
    ∃ tail, (marshal (.array e) it n oom).1 =
      ([⟨0, "/* Marshal an array onto the message */"⟩,
        ⟨0, "if (! dbus_message_iter_open_container (&" ++ it ++
            ", DBUS_TYPE_ARRAY, \"" ++ signatureOf e ++ "\", &" ++ (n ++ "_iter") ++
            ")) \x7b"⟩]
       ++ indentLines oom ++ [⟨0, "\x7d"⟩, ⟨0, ""⟩])
      ++ [if dbus_type_is_fixed e.currentTypeCode then
            (⟨0, "for (size_t " ++ (n ++ "_i") ++ " = 0; " ++ (n ++ "_i") ++ " < " ++
                (n ++ "_len") ++ "; " ++ (n ++ "_i") ++ "++) \x7b"⟩ : Line)
          else
            ⟨0, "for (size_t " ++ (n ++ "_i") ++ " = 0; " ++ n ++ "[" ++
                (n ++ "_i") ++ "]; " ++ (n ++ "_i") ++ "++) \x7b"⟩] ++ tail := by
  refine ⟨⟨?_, ?_⟩, marshal_array_inputs e it n oom, ?_⟩
  · intro hmem
    rw [marshal_array_inputs] at hmem
    rcases List.mem_append.mp hmem with hmem | hmem
    · obtain ⟨iv0, _, hiv0⟩ := List.mem_map.mp hmem
      exact absurd (congrArg TypeVar.type hiv0) (type_promoted_ne_size_t iv0.type)
    · by_cases hfix : dbus_type_is_fixed e.currentTypeCode = true
      · exact hfix
      · rw [if_neg hfix] at hmem
        cases hmem
  · intro hfix
    rw [marshal_array_inputs, if_pos hfix]
    exact List.mem_append_right _ (List.mem_singleton.mpr rfl)
  · refine ⟨indentLines (((marshal e (n ++ "_iter") (n ++ "_element") oom).2.2 ++
        (marshal e (n ++ "_iter") (n ++ "_element") oom).2.1).map fun lv =>
          ⟨0, lv.type ++ " " ++ lv.name ++ ";"⟩) ++ [⟨0, ""⟩]
      ++ indentLines ((marshal e (n ++ "_iter") (n ++ "_element") oom).2.1.map fun iv =>
          ⟨0, iv.name ++ " = " ++ (n ++ strDrop iv.name (n ++ "_element").length) ++
              "[" ++ (n ++ "_i") ++ "];"⟩) ++ [⟨0, ""⟩]
      ++ indentLines (marshal e (n ++ "_iter") (n ++ "_element") oom).1
      ++ ([⟨0, "\x7d"⟩, ⟨0, ""⟩,
           ⟨0, "if (! dbus_message_iter_close_container (&" ++ it ++ ", &" ++
               (n ++ "_iter") ++ ")) \x7b"⟩]
          ++ indentLines oom ++ [⟨0, "\x7d"⟩]), ?_⟩
    rw [marshal_array_code]
    simp [List.append_assoc]

/-- C5: every dispatcher call on a supported element with initially-empty
lists yields a non-empty input list whose first entry is named exactly the
base name, whose every entry's name extends the base name, and whose names
are pairwise distinct. -/
theorem C5_input_list_invariant (s : Sig) (it n : String) (oom : List Line) :
    (marshal s it n oom).2.1 ≠ [] ∧
    ((marshal s it n oom).2.1.map TypeVar.name).head? = some n ∧
    (∀ iv ∈ (marshal s it n oom).2.1, ∃ suf, iv.name = n ++ suf) ∧
    ((marshal s it n oom).2.1.map TypeVar.name).Nodup := by
  obtain ⟨h1, h2, h3⟩ := marshal_inputs_spec s it n oom
  refine ⟨?_, h1, h2, h3⟩
  intro hnil
  rw [hnil] at h1
  cases h1

/-- Witness for C5 at a fixed-element array named `nums`. -/
theorem C5_input_list_invariant_witness :
    (marshal (.array (.basic DBUS_TYPE_INT32)) "iter" "nums"
        [⟨0, "return -1;"⟩]).2.1 ≠ [] ∧
    ((marshal (.array (.basic DBUS_TYPE_INT32)) "iter" "nums"
        [⟨0, "return -1;"⟩]).2.1.map TypeVar.name).head? = some "nums" ∧
    (∀ iv ∈ (marshal (.array (.basic DBUS_TYPE_INT32)) "iter" "nums"
        [⟨0, "return -1;"⟩]).2.1, ∃ suf, iv.name = "nums" ++ suf) ∧
    ((marshal (.array (.basic DBUS_TYPE_INT32)) "iter" "nums"
        [⟨0, "return -1;"⟩]).2.1.map TypeVar.name).Nodup :=
  C5_input_list_invariant (.array (.basic DBUS_TYPE_INT32)) "iter" "nums"
    [⟨0, "return -1;"⟩]

/-- C7: every fallible writer operation is guarded by a failure branch whose
body is the caller's recovery fragment re-indented one level: the generated
code equals the marker template with the fragment spliced at the marker
lines and nowhere else, the template has exactly one marker per fallible
writer operation, and each marker sits directly under its guard line, one
level deeper, followed by the guard's closing brace. -/
theorem C7_recovery_splicing (s : Sig) (it n : String) (oom : List Line) :
    (marshal s it n oom).1 = spliceOom oom ((marshal s it n [markerLine]).1) ∧
    oomPoints ((marshal s it n [markerLine]).1) = fallibleWriterOps s ∧
    GuardedSplices ((marshal s it n [markerLine]).1) := by
  obtain ⟨_, h2, h3, h4⟩ := marshal_oom_master s it n oom
  exact ⟨h2, h3, h4⟩

/-- C8: the basic generator declares no locals, produces exactly one input
(the read-only native type, named exactly the base name), and its fragment
is a single append guarded once by the recovery fragment. -/
theorem C8_basic_generator (c : Int) (it n : String) (oom : List Line) :
    marshal (.basic c) it n oom =
      ([⟨0, "/* Marshal a " ++ type_to_const (type_of (.basic c)) ++
            " onto the message */"⟩,
        ⟨0, "if (! dbus_message_iter_append_basic (&" ++ it ++ ", " ++
            type_const c ++ ", &" ++ n ++ ")) \x7b"⟩]
       ++ indentLines oom ++ [⟨0, "\x7d"⟩],
       [⟨type_to_const (type_of (.basic c)), n⟩], []) ∧
    oomPoints ((marshal (.basic c) it n [markerLine]).1) = 1 := by
  refine ⟨rfl, ?_⟩
  have h := (marshal_oom_master (.basic c) it n [markerLine]).2.2.1
  rw [show fallibleWriterOps (.basic c) = 1 from rfl] at h
  exact h

/-- C10: the array generator appends exactly one descriptor to the caller's
locals — the `DBusMessageIter` container iterator `N_iter` — while every
variable of the element's recursive call (its locals followed by its
pre-promotion inputs) is instead declared textually inside the emitted loop
body, one level deep. -/
theorem C10_array_iterator_local (e : Sig) (it n : String) (oom : List Line) :
    (marshal (.array e) it n oom).2.2 = [⟨"DBusMessageIter", n ++ "_iter"⟩] ∧
    ∃ tail, (marshal (.array e) it n oom).1 =
      ([⟨0, "/* Marshal an array onto the message */"⟩,
        ⟨0, "if (! dbus_message_iter_open_container (&" ++ it ++
            ", DBUS_TYPE_ARRAY, \"" ++ signatureOf e ++ "\", &" ++ (n ++ "_iter") ++
            ")) \x7b"⟩]
       ++ indentLines oom ++ [⟨0, "\x7d"⟩, ⟨0, ""⟩])
      ++ [if dbus_type_is_fixed e.currentTypeCode then
            (⟨0, "for (size_t " ++ (n ++ "_i") ++ " = 0; " ++ (n ++ "_i") ++ " < " ++
                (n ++ "_len") ++ "; " ++ (n ++ "_i") ++ "++) \x7b"⟩ : Line)
          else
            ⟨0, "for (size_t " ++ (n ++ "_i") ++ " = 0; " ++ n ++ "[" ++
                (n ++ "_i") ++ "]; " ++ (n ++ "_i") ++ "++) \x7b"⟩]
      ++ indentLines (((marshal e (n ++ "_iter") (n ++ "_element") oom).2.2 ++
          (marshal e (n ++ "_iter") (n ++ "_element") oom).2.1).map fun lv =>
            ⟨0, lv.type ++ " " ++ lv.name ++ ";"⟩)
      ++ tail := by
  refine ⟨marshal_array_locals e it n oom,
    ⟨[⟨0, ""⟩]
      ++ indentLines ((marshal e (n ++ "_iter") (n ++ "_element") oom).2.1.map fun iv =>
          ⟨0, iv.name ++ " = " ++ (n ++ strDrop iv.name (n ++ "_element").length) ++
              "[" ++ (n ++ "_i") ++ "];"⟩) ++ [⟨0, ""⟩]
      ++ indentLines (marshal e (n ++ "_iter") (n ++ "_element") oom).1
      ++ ([⟨0, "\x7d"⟩, ⟨0, ""⟩,
           ⟨0, "if (! dbus_message_iter_close_container (&" ++ it ++ ", &" ++
               (n ++ "_iter") ++ ")) \x7b"⟩]
          ++ indentLines oom ++ [⟨0, "\x7d"⟩]), ?_⟩⟩
  rw [marshal_array_code]
  simp [List.append_assoc]

/-- C3: for the struct/entry member at 0-based ordinal `k`, every input of
the member's recursive marshal call (named `N_item<k><suffix>`) is
reclassified as a local of the struct call, the struct fragment contains the
field-read assignment `N_item<k><suffix> = N->item<k><suffix>;` directly
before that member's marshalling code, and every local the recursive call
declared is re-parented unchanged into the struct call's locals. -/
theorem C3_struct_member_flattening (en : Bool) (ct : String) (ms : List Sig)
    (it n : String) (oom : List Line) (k : Nat) (hk : k < ms.length) :
    (∃ pre post, (marshal (.strct en ct ms) it n oom).1 =
        pre ++
        ((marshal (ms.get ⟨k, hk⟩) (n ++ "_iter") (n ++ "_item" ++ toString k) oom).2.1.map
          (fun iv => (⟨0, iv.name ++ " = " ++ n ++ "->item" ++ toString k ++
              strDrop iv.name (n ++ "_item" ++ toString k).length ++ ";"⟩ : Line)))
        ++ [⟨0, ""⟩]
        ++ (marshal (ms.get ⟨k, hk⟩) (n ++ "_iter") (n ++ "_item" ++ toString k) oom).1
        ++ [⟨0, ""⟩] ++ post) ∧
    (∀ lv ∈ (marshal (ms.get ⟨k, hk⟩) (n ++ "_iter") (n ++ "_item" ++ toString k) oom).2.2,
        lv ∈ (marshal (.strct en ct ms) it n oom).2.2) ∧
    (∀ iv ∈ (marshal (ms.get ⟨k, hk⟩) (n ++ "_iter") (n ++ "_item" ++ toString k) oom).2.1,
        iv ∈ (marshal (.strct en ct ms) it n oom).2.2 ∧
        ∃ suf, iv.name = (n ++ "_item" ++ toString k) ++ suf ∧
          iv.name ++ " = " ++ n ++ "->item" ++ toString k ++
              strDrop iv.name (n ++ "_item" ++ toString k).length ++ ";" =
            ((n ++ "_item" ++ toString k) ++ suf) ++ " = " ++ n ++ "->item" ++
              toString k ++ suf ++ ";") := by
  obtain ⟨⟨pre, post, hcode⟩, hvars⟩ := struct_items_member (n ++ "_iter") n oom ms 0 k hk
  rw [Nat.zero_add] at hcode hvars
  refine ⟨?_, ?_, ?_⟩
  · refine ⟨([⟨0, "/* Marshal a structure onto the message */"⟩,
        ⟨0, "if (! dbus_message_iter_open_container (&" ++ it ++ ", " ++
            type_const (Sig.strct en ct ms).currentTypeCode ++ ", NULL, &" ++
            (n ++ "_iter") ++ ")) \x7b"⟩]
       ++ indentLines oom ++ [⟨0, "\x7d"⟩, ⟨0, ""⟩]) ++ pre,
      post ++ ([⟨0, "if (! dbus_message_iter_close_container (&" ++ it ++ ", &" ++
              (n ++ "_iter") ++ ")) \x7b"⟩]
          ++ indentLines oom ++ [⟨0, "\x7d"⟩]), ?_⟩
    rw [marshal_struct_code, hcode]
    simp [structItemSeg, List.append_assoc]
  · intro lv hlv
    rw [marshal_struct_locals]
    exact List.mem_cons_of_mem _ (hvars lv (List.mem_append_left _ hlv))
  · intro iv hiv
    constructor
    · rw [marshal_struct_locals]
      exact List.mem_cons_of_mem _ (hvars iv (List.mem_append_right _ hiv))
    · obtain ⟨suf, hsuf⟩ := (marshal_inputs_spec (ms.get ⟨k, hk⟩) (n ++ "_iter")
        (n ++ "_item" ++ toString k) oom).2.1 iv hiv
      refine ⟨suf, hsuf, ?_⟩
      rw [hsuf, strDrop_append]

/-- Witness for C3 at the second member (ordinal 1, a string) of a
two-member struct named `pair`. -/
theorem C3_struct_member_flattening_witness :
    (∃ pre post, (marshal (.strct false "MyPairStruct *"
          [.basic DBUS_TYPE_INT32, .basic DBUS_TYPE_STRING]) "iter" "pair"
          [⟨0, "return -1;"⟩]).1 =
        pre ++
        ((marshal ([Sig.basic DBUS_TYPE_INT32, Sig.basic DBUS_TYPE_STRING].get
              ⟨1, by decide⟩) ("pair" ++ "_iter") ("pair" ++ "_item" ++ toString 1)
            [⟨0, "return -1;"⟩]).2.1.map
          (fun iv => (⟨0, iv.name ++ " = " ++ "pair" ++ "->item" ++ toString 1 ++
              strDrop iv.name ("pair" ++ "_item" ++ toString 1).length ++ ";"⟩ : Line)))
        ++ [⟨0, ""⟩]
        ++ (marshal ([Sig.basic DBUS_TYPE_INT32, Sig.basic DBUS_TYPE_STRING].get
              ⟨1, by decide⟩) ("pair" ++ "_iter") ("pair" ++ "_item" ++ toString 1)
            [⟨0, "return -1;"⟩]).1
        ++ [⟨0, ""⟩] ++ post) ∧
    (∀ lv ∈ (marshal ([Sig.basic DBUS_TYPE_INT32, Sig.basic DBUS_TYPE_STRING].get
          ⟨1, by decide⟩) ("pair" ++ "_iter") ("pair" ++ "_item" ++ toString 1)
          [⟨0, "return -1;"⟩]).2.2,
        lv ∈ (marshal (.strct false "MyPairStruct *"
          [.basic DBUS_TYPE_INT32, .basic DBUS_TYPE_STRING]) "iter" "pair"
          [⟨0, "return -1;"⟩]).2.2) ∧
    (∀ iv ∈ (marshal ([Sig.basic DBUS_TYPE_INT32, Sig.basic DBUS_TYPE_STRING].get
          ⟨1, by decide⟩) ("pair" ++ "_iter") ("pair" ++ "_item" ++ toString 1)
          [⟨0, "return -1;"⟩]).2.1,
        iv ∈ (marshal (.strct false "MyPairStruct *"
          [.basic DBUS_TYPE_INT32, .basic DBUS_TYPE_STRING]) "iter" "pair"
          [⟨0, "return -1;"⟩]).2.2 ∧
        ∃ suf, iv.name = ("pair" ++ "_item" ++ toString 1) ++ suf ∧
          iv.name ++ " = " ++ "pair" ++ "->item" ++ toString 1 ++
              strDrop iv.name ("pair" ++ "_item" ++ toString 1).length ++ ";" =
            (("pair" ++ "_item" ++ toString 1) ++ suf) ++ " = " ++ "pair" ++
              "->item" ++ toString 1 ++ suf ++ ";") :=
  C3_struct_member_flattening false "MyPairStruct *"
    [.basic DBUS_TYPE_INT32, .basic DBUS_TYPE_STRING] "iter" "pair"
    [⟨0, "return -1;"⟩] 1 (by decide)

/-- C6 (counterexample): the integer/string struct named `pair` yields three
locals — the container iterator and the two flattened member values — not
the two the claim asserts. -/
theorem C6_two_member_struct_counterexample :
    (marshal (.strct false "MyPairStruct *"
        [.basic DBUS_TYPE_INT32, .basic DBUS_TYPE_STRING])
        "iter" "pair" [⟨0, "return -1;"⟩]).2.2 =
      [⟨"DBusMessageIter", "pair_iter"⟩, ⟨"int32_t", "pair_item0"⟩,
       ⟨"const char *", "pair_item1"⟩] ∧
    ¬ ((marshal (.strct false "MyPairStruct *"
        [.basic DBUS_TYPE_INT32, .basic DBUS_TYPE_STRING])
        "iter" "pair" [⟨0, "return -1;"⟩]).2.2.length = 2) :=
  ⟨by decide, by decide⟩

/-- C6 (amended): the number of locals a struct/entry call produces equals
one (the container iterator) plus, over the members in order, the number of
locals plus the number of inputs of each member's own marshal call — i.e.
the iterator plus everything the flattening reclassifies. -/
theorem C6_struct_locals_count (en : Bool) (ct : String) (ms : List Sig)
    (it n : String) (oom : List Line) :
    (marshal (.strct en ct ms) it n oom).2.2.length =
      1 + ((ms.enumFrom 0).map (fun km =>
        (marshal km.2 (n ++ "_iter") (n ++ "_item" ++ toString km.1) oom).2.2.length +
        (marshal km.2 (n ++ "_iter") (n ++ "_item" ++ toString km.1) oom).2.1.length)).sum := by
  rw [marshal_struct_locals, List.length_cons,
      show (marshal_struct_items (n ++ "_iter") n oom 0 ms).2 =
          (ms.enumFrom 0).flatMap (structItemVars (n ++ "_iter") n oom) from
        congrArg Prod.snd (marshal_struct_items_eq (n ++ "_iter") n oom ms 0),
      List.length_flatMap]
  have hpt : ∀ km ∈ ms.enumFrom 0,
      (List.length ∘ structItemVars (n ++ "_iter") n oom) km =
        (marshal km.2 (n ++ "_iter") (n ++ "_item" ++ toString km.1) oom).2.2.length +
        (marshal km.2 (n ++ "_iter") (n ++ "_item" ++ toString km.1) oom).2.1.length :=
    fun km _ => List.length_append _ _
  rw [List.map_congr_left hpt]
  omega

/-- C9: the dispatcher routes basic, array and struct/dict-entry elements to
the matching generator with all arguments unchanged, and aborts generation
fatally (no recoverable return) exactly when an argument is null or the
element's category is outside those three — in particular for variant — so
the abort is unreachable for supported categories with non-null arguments. -/
theorem C9_dispatch_classification :
    (∀ (a b c d e f : Bool) (t : Int),
      marshal_route a b c d e f t = none ↔
        ((a || b || c || d || e || f) = true ∨
         (dbus_type_is_basic t = false ∧ t ≠ DBUS_TYPE_ARRAY ∧
          t ≠ DBUS_TYPE_STRUCT ∧ t ≠ DBUS_TYPE_DICT_ENTRY))) ∧
    marshal_route false false false false false false DBUS_TYPE_VARIANT = none ∧
    (∀ s : Sig, Sig.wf s →
      marshal_route false false false false false false s.currentTypeCode =
        some s.genOf) ∧
    (∀ (c : Int) (it n : String) (oom : List Line),
      marshal (.basic c) it n oom = marshal_basic c it n oom) := by
  refine ⟨?_, by decide, ?_, fun c it n oom => rfl⟩
  · intro a b c d e f t
    constructor
    · intro h
      by_cases h1 : (a || b || c || d || e || f) = true
      · exact Or.inl h1
      · unfold marshal_route at h
        rw [if_neg h1] at h
        by_cases h2 : dbus_type_is_basic t = true
        · rw [if_pos h2] at h
          cases h
        · rw [if_neg h2] at h
          by_cases h3 : t = DBUS_TYPE_ARRAY
          · rw [if_pos h3] at h
            cases h
          · rw [if_neg h3] at h
            by_cases h4 : t = DBUS_TYPE_STRUCT ∨ t = DBUS_TYPE_DICT_ENTRY
            · rw [if_pos h4] at h
              cases h
            · exact Or.inr ⟨by rwa [Bool.not_eq_true] at h2, h3,
                fun he => h4 (Or.inl he), fun he => h4 (Or.inr he)⟩
    · intro h
      unfold marshal_route
      rcases h with h | ⟨hb2, ha2, hs2, hd2⟩
      · rw [if_pos h]
      · by_cases h1 : (a || b || c || d || e || f) = true
        · rw [if_pos h1]
        · rw [if_neg h1, if_neg (by simp [hb2]), if_neg ha2,
              if_neg (by rintro (h' | h') <;> [exact hs2 h'; exact hd2 h'])]
  · intro s hwf
    cases s with
    | basic c2 =>
        have hb2 : dbus_type_is_basic c2 = true := hwf
        show marshal_route false false false false false false c2 =
          some MarshalGen.toBasic
        unfold marshal_route
        rw [if_neg (by simp), if_pos hb2]
    | array e =>
        exact (by decide : marshal_route false false false false false false
          DBUS_TYPE_ARRAY = some MarshalGen.toArray)
    | strct en2 ct2 ms2 =>
        cases en2 with
        | false =>
            exact (by decide : marshal_route false false false false false false
              DBUS_TYPE_STRUCT = some MarshalGen.toStruct)
        | true =>
            exact (by decide : marshal_route false false false false false false
              DBUS_TYPE_DICT_ENTRY = some MarshalGen.toStruct)

/-- Witness for C9 at a basic string element. -/
theorem C9_dispatch_classification_witness :
    Sig.wf (.basic DBUS_TYPE_STRING) ∧
    marshal_route false false false false false false
        (Sig.basic DBUS_TYPE_STRING).currentTypeCode =
      some (Sig.basic DBUS_TYPE_STRING).genOf :=
  ⟨by decide, C9_dispatch_classification.2.2.1 (Sig.basic DBUS_TYPE_STRING) (by decide)⟩
